import Mathlib

/-!
Shallow embedding of `try_gif.py`, a pipeline that turns a folder of still
images into an animated GIF: natural-sort path collection, aspect-preserving
letterbox fit onto a uniform canvas, frame loading, GIF saving, and a driver
that resolves per-frame duration from `fps` / `duration_ms`.

Modelling conventions:
  * A raster image (`Img`) is a width, a height and a pixel function.
  * Python's exact float arithmetic on small ratios is modelled with `ℚ`;
    Python `int()` (truncation toward zero) is `pyInt`, Python `//` on
    integers is `Int.fdiv` (floor division).
  * Pillow's LANCZOS resampling content is an abstract parameter `resample`;
    its dimension behaviour and the documented shortcut "resize to the same
    size returns a pixel-identical copy" are modelled explicitly.
  * Exceptions are `Except`: Pillow raises on a negative `Image.new` size,
    Python raises `ZeroDivisionError` on division by a zero image dimension,
    `save_gif` raises `ValueError` on an empty frame list, and
    `make_gif_from_folder` raises `FileNotFoundError` on an empty scan.
  * Filenames are treated as ASCII strings (digit detection and
    lower-casing are the ASCII cases of Python's Unicode behaviour).
-/

/-- An RGBA pixel value (red, green, blue, alpha). -/
abbrev RGBA := ℕ × ℕ × ℕ × ℕ

/-- An in-memory raster image: width, height, and a pixel buffer.
`pixel x y` is only meaningful for `x < width`, `y < height`. -/
structure Img where
  width : ℕ
  height : ℕ
  pixel : ℕ → ℕ → RGBA

/-- Abstract resampling content: given a source image and target dimensions,
produce the resampled pixel buffer.  Stands for Pillow's LANCZOS filter,
whose numeric kernel we do not model. -/
abbrev Resample := Img → ℕ → ℕ → (ℕ → ℕ → RGBA)

/-- The default background fill: fully transparent black `(0, 0, 0, 0)`. -/
def trBG : RGBA := (0, 0, 0, 0)

/-- Python `int()` applied to an exact rational: truncation toward zero.
(`q.num.tdiv q.den` because the denominator is positive and `Int.tdiv`
truncates toward zero.) -/
def pyInt (q : ℚ) : ℤ := q.num.tdiv q.den

/-- For a non-negative rational, Python `int()` is the floor. -/
theorem pyInt_eq_floor {q : ℚ} (h : 0 ≤ q) : pyInt q = ⌊q⌋ := by
  have hn : 0 ≤ q.num := Rat.num_nonneg.mpr h
  have hd : (0 : ℤ) ≤ (q.den : ℤ) := Int.ofNat_nonneg q.den
  rw [pyInt, Int.tdiv_eq_ediv hn hd, Rat.floor_def]

/- ---------------------------------------------------------------------
   Natural sort (`natural_sort_key`, `collect_image_paths`)

   Python: `re.split(r'(\d+)', s)` splits `s` into alternating runs of
   non-digits and digits (keeping the digit runs); each digit run becomes
   an `int`, each other run is lower-cased.  Keys (Python lists) are
   compared lexicographically.
   --------------------------------------------------------------------- -/

/-- One token of a natural-sort key: a digit run read as a number, or a
lower-cased non-digit run. -/
inductive Tok where
  | num (n : ℕ)
  | str (s : List Char)
deriving DecidableEq

/-- Python string `<` (code-point lexicographic) on character lists. -/
def strLTb : List Char → List Char → Bool
  | _, [] => false
  | [], _ :: _ => true
  | a :: as, b :: bs => if a = b then strLTb as bs else decide (a < b)

/-- Python `<` on key tokens.  Digit tokens compare numerically, string
tokens lexicographically.  A number/string comparison never occurs between
aligned positions of two real keys (keys alternate str/num starting with
str), so the cross-constructor value is an arbitrary tie-break. -/
def tokLT : Tok → Tok → Bool
  | .num m, .num n => decide (m < n)
  | .num _, .str _ => true
  | .str _, .num _ => false
  | .str a, .str b => strLTb a b

/-- Python `<=` on whole keys (list comparison: first differing element
decides; a strict prefix is smaller). -/
def keyLE : List Tok → List Tok → Bool
  | [], _ => true
  | _ :: _, [] => false
  | a :: as, b :: bs => if a = b then keyLE as bs else tokLT a b

mutual

/-- State "inside a non-digit run": `acc` holds the current run's
lower-cased characters in reverse. -/
def natKeyGo (acc : List Char) : List Char → List Tok
  | [] => [.str acc.reverse]
  | c :: cs =>
    if c.isDigit then natKeyNum acc.reverse (c.toNat - '0'.toNat) cs
    else natKeyGo (c.toLower :: acc) cs

/-- State "inside a digit run": `p` is the preceding non-digit token,
`n` the numeric value accumulated so far. -/
def natKeyNum (p : List Char) (n : ℕ) : List Char → List Tok
  | [] => [.str p, .num n, .str []]
  | c :: cs =>
    if c.isDigit then natKeyNum p (10 * n + (c.toNat - '0'.toNat)) cs
    else .str p :: .num n :: natKeyGo [c.toLower] cs

end

/-- `natural_sort_key` from the source: split into alternating digit /
non-digit runs, digit runs as integers, other runs lower-cased. -/
def natural_sort_key (s : String) : List Tok := natKeyGo [] s.data

/-- The sort relation used by `sorted(paths, key=natural_sort_key)`. -/
def keyR (a b : String) : Prop := keyLE (natural_sort_key a) (natural_sort_key b) = true

instance : DecidableRel keyR := fun _ _ => instDecidableEqBool _ _

/-- `collect_image_paths` from the source, over the list of glob matches:
sort by the natural key.  (Directory traversal itself is filesystem I/O;
its result list is this function's input.) -/
def collect_image_paths (found : List String) : List String :=
  List.insertionSort keyR found

/- ---------------------------------------------------------------------
   Pillow primitives used by `fit_to_canvas`
   --------------------------------------------------------------------- -/

/-- Errors raised inside the imaging layer: Python's `ZeroDivisionError`
(image with a zero dimension), Pillow's `ValueError` on a negative
`Image.new` / `resize` size. -/
inductive PilError where
  | zeroDivision
  | invalidSize
deriving DecidableEq

/-- `Image.new('RGBA', (w, h), bg)` once the size is known non-negative:
a solid canvas. -/
def Img.new (w h : ℕ) (bg : RGBA) : Img := ⟨w, h, fun _ _ => bg⟩

/-- `img.resize((w, h), Image.LANCZOS)`.  Pillow returns a pixel-identical
copy when the target size equals the source size (its documented
short-circuit); otherwise the content is the abstract resampling. -/
def Img.resizeA (resample : Resample) (im : Img) (w h : ℕ) : Img :=
  if im.width = w ∧ im.height = h then im else ⟨w, h, resample im w h⟩

/-- `canvas.paste(im, (ox, oy))` for an RGBA source and no mask: pixels in
the pasted rectangle are replaced (clipped to the canvas), others kept. -/
def Img.paste (canvas : Img) (im : Img) (ox oy : ℤ) : Img :=
  { canvas with
    pixel := fun x y =>
      if ox ≤ (x : ℤ) ∧ (x : ℤ) < ox + im.width ∧ oy ≤ (y : ℤ) ∧ (y : ℤ) < oy + im.height
      then im.pixel ((x : ℤ) - ox).toNat ((y : ℤ) - oy).toNat
      else canvas.pixel x y }

/- ---------------------------------------------------------------------
   `fit_to_canvas`
   --------------------------------------------------------------------- -/

/-- `scale = min(target_w / w, target_h / h)` (exact rational in place of
Python's float division). -/
def fitScale (w h : ℕ) (tw th : ℤ) : ℚ :=
  min ((tw : ℚ) / (w : ℚ)) ((th : ℚ) / (h : ℚ))

/-- `new_w, new_h = max(1, int(w * scale)), max(1, int(h * scale))`. -/
def fitDims (w h : ℕ) (tw th : ℤ) : ℤ × ℤ :=
  let s := fitScale w h tw th
  (max 1 (pyInt ((w : ℚ) * s)), max 1 (pyInt ((h : ℚ) * s)))

/-- `offset = ((target_w - new_w) // 2, (target_h - new_h) // 2)`
(Python `//` is floor division). -/
def fitOffset (w h : ℕ) (tw th : ℤ) : ℤ × ℤ :=
  let nd := fitDims w h tw th
  ((tw - nd.1).fdiv 2, (th - nd.2).fdiv 2)

/-- `fit_to_canvas` from the source: resize and/or pad the image to exactly
match `size`.  In the aspect-preserving branch the image is scaled by
`min(target_w/w, target_h/h)`, resized (floored dimensions, floor of 1),
and pasted centered onto a fresh canvas.  Pillow raises when the requested
canvas has a negative dimension; a zero image dimension raises
`ZeroDivisionError` at the `scale` computation. -/
def fit_to_canvas (resample : Resample) (im : Img) (size : ℤ × ℤ)
    (keep_aspect : Bool := true) (bg : RGBA := trBG) : Except PilError Img :=
  if keep_aspect then
    if im.width = 0 ∨ im.height = 0 then .error .zeroDivision
    else
      let nd := fitDims im.width im.height size.1 size.2
      let resized := Img.resizeA resample im nd.1.toNat nd.2.toNat
      if size.1 < 0 ∨ size.2 < 0 then .error .invalidSize
      else
        let off := fitOffset im.width im.height size.1 size.2
        .ok ((Img.new size.1.toNat size.2.toNat bg).paste resized off.1 off.2)
  else
    if size.1 < 0 ∨ size.2 < 0 then .error .invalidSize
    else .ok (Img.resizeA resample im size.1.toNat size.2.toNat)

/- ---------------------------------------------------------------------
   `load_frames`, `save_gif`, `make_gif_from_folder`
   --------------------------------------------------------------------- -/

/-- A source file that cannot be decoded as an image. -/
inductive LoadError where
  | undecodable (path : String)
deriving DecidableEq

/-- Any error escaping the pipeline: empty scan, decode failure, imaging
error, or `save_gif`'s `ValueError` on an empty frame list. -/
inductive DriverError where
  | noImagesFound
  | load (e : LoadError)
  | pil (e : PilError)
  | emptyInput
deriving DecidableEq

/-- `load_frames` from the source, over an abstract decoder
`loader : path → Except LoadError Img` standing for
`Image.open(p).convert('RGBA')`.  The canvas size is fixed at the first
iteration to `target_size or img.size`; every frame (the first included)
is fitted onto that canvas. -/
def load_frames (resample : Resample) (loader : String → Except LoadError Img)
    (paths : List String) (target_size : Option (ℤ × ℤ)) :
    Except DriverError (List Img) :=
  match paths with
  | [] => .ok []
  | p0 :: rest => do
    let img0 ← (loader p0).mapError DriverError.load
    let base := target_size.getD ((img0.width : ℤ), (img0.height : ℤ))
    let f0 ← (fit_to_canvas resample img0 base true trBG).mapError DriverError.pil
    let fs ← rest.mapM (fun p => do
      let im ← (loader p).mapError DriverError.load
      (fit_to_canvas resample im base true trBG).mapError DriverError.pil)
    pure (f0 :: fs)

/-- The written GIF file, as far as the model observes it: the palette
frames, per-frame duration, loop count, optimize flag. -/
structure GifFile where
  frames : List Img
  duration_ms : ℤ
  loop : ℤ
  optimize : Bool

/-- `save_gif` from the source, with palette quantization
(`convert('P', palette=ADAPTIVE, colors=256)`) abstracted as `quantize`:
raises `ValueError` on an empty frame list, otherwise writes one file. -/
def save_gif (quantize : Img → Img) (frames : List Img) (duration_ms : ℤ)
    (loop : ℤ) (optimize : Bool := true) : Except DriverError GifFile :=
  if frames.isEmpty then .error .emptyInput
  else .ok ⟨frames.map quantize, duration_ms, loop, optimize⟩

/-- The duration resolution of `make_gif_from_folder` (lines 77–80):
`if fps is not None and fps > 0: duration_ms = int(1000 / fps)`;
`if duration_ms is None: duration_ms = 100`. -/
def resolve_duration (fps : Option ℚ) (duration_ms : Option ℤ) : ℤ :=
  let d := match fps with
    | some f => if 0 < f then some (pyInt ((1000 : ℚ) / f)) else duration_ms
    | none => duration_ms
  d.getD 100

/-- `make_gif_from_folder` from the source: collect paths, fail when none
were found, resolve the duration, load the frames, save the GIF.
`found` is the raw glob result; `loader` the image decoder. -/
def make_gif_from_folder (resample : Resample) (quantize : Img → Img)
    (loader : String → Except LoadError Img) (found : List String)
    (fps : Option ℚ) (duration_ms : Option ℤ) (size : Option (ℤ × ℤ))
    (loop : ℤ) : Except DriverError GifFile :=
  let paths := collect_image_paths found
  if paths = [] then .error .noImagesFound
  else
    let d := resolve_duration fps duration_ms
    do
      let frames ← load_frames resample loader paths size
      save_gif quantize frames d loop true

/- ---------------------------------------------------------------------
   Sample data used by concrete witnesses
   --------------------------------------------------------------------- -/

/-- A trivial resampler (content irrelevant to the claims). -/
def trivResample : Resample := fun _ _ _ _ _ => trBG

/-- A concrete 2×2 image with distinguishable pixels. -/
def sampleImg : Img := ⟨2, 2, fun x y => (x, y, 7, 255)⟩

/-- A loader that decodes every path to `sampleImg`. -/
def sampleLoader : String → Except LoadError Img := fun _ => .ok sampleImg

/-- Extensional pixel equality on the in-range region. -/
def sameImage (a b : Img) : Prop :=
  a.width = b.width ∧ a.height = b.height ∧
    ∀ x < a.width, ∀ y < a.height, a.pixel x y = b.pixel x y

/-- The resized dimensions as the specification words them: scale
`min(cw/w, ch/h)`, dimensions floored, with a floor of 1 pixel per
dimension.  Used to compare the source computation against the spec. -/
def specFitDims (w h : ℕ) (tw th : ℤ) : ℤ × ℤ :=
  let s : ℚ := min ((tw : ℚ) / (w : ℚ)) ((th : ℚ) / (h : ℚ))
  (max 1 ⌊(w : ℚ) * s⌋, max 1 ⌊(h : ℚ) * s⌋)

/-- The paste offset as the specification words it:
`((cw - new_w) div 2, (ch - new_h) div 2)`, integer division. -/
def specFitOffset (w h : ℕ) (tw th : ℤ) : ℤ × ℤ :=
  let nd := specFitDims w h tw th
  ((tw - nd.1) / 2, (th - nd.2) / 2)

/-- The frame produced by fitting `sampleImg` onto a 5×4 canvas
(scale 2, resized to 4×4, pasted at offset (0, 0)). -/
def w1Frame : Img :=
  (Img.new 5 4 trBG).paste ⟨4, 4, trivResample sampleImg 4 4⟩ 0 0

/- ---------------------------------------------------------------------
   Order lemmas for the natural-sort relation
   --------------------------------------------------------------------- -/

theorem strLTb_irrefl (a : List Char) : strLTb a a = false := by
  induction a with
  | nil => rfl
  | cons c cs ih => simp [strLTb, ih]

theorem strLTb_trans {a b c : List Char} (h1 : strLTb a b = true)
    (h2 : strLTb b c = true) : strLTb a c = true := by
  induction a generalizing b c with
  | nil =>
    cases c with
    | nil => cases b <;> simp_all [strLTb]
    | cons z zs => simp [strLTb]
  | cons x xs ih =>
    cases b with
    | nil => simp [strLTb] at h1
    | cons y ys =>
      cases c with
      | nil => simp [strLTb] at h2
      | cons z zs =>
        simp only [strLTb] at h1 h2 ⊢
        by_cases hxy : x = y
        · subst hxy
          by_cases hyz : x = z
          · subst hyz
            simp only [if_pos rfl] at h1 h2 ⊢
            exact ih h1 h2
          · simp_all
        · by_cases hyz : y = z
          · subst hyz
            simp_all
          · simp only [if_neg hxy, decide_eq_true_eq] at h1
            simp only [if_neg hyz, decide_eq_true_eq] at h2
            have hxz : x < z := lt_trans h1 h2
            simp [ne_of_lt hxz, hxz]

theorem strLTb_connex {a b : List Char} (h : a ≠ b) :
    strLTb a b = true ∨ strLTb b a = true := by
  induction a generalizing b with
  | nil =>
    cases b with
    | nil => exact absurd rfl h
    | cons z zs => left; rfl
  | cons x xs ih =>
    cases b with
    | nil => right; rfl
    | cons y ys =>
      by_cases hxy : x = y
      · subst hxy
        have hne : xs ≠ ys := fun hEq => h (by rw [hEq])
        rcases ih hne with h' | h'
        · left; simp [strLTb, h']
        · right; simp [strLTb, h']
      · rcases lt_or_gt_of_ne hxy with h' | h'
        · left; simp [strLTb, hxy, h']
        · right; simp [strLTb, Ne.symm hxy, h']

theorem tokLT_irrefl (a : Tok) : tokLT a a = false := by
  cases a with
  | num n => simp [tokLT]
  | str s => simp [tokLT, strLTb_irrefl]

theorem tokLT_trans {a b c : Tok} (h1 : tokLT a b = true) (h2 : tokLT b c = true) :
    tokLT a c = true := by
  cases a <;> cases b <;> cases c <;> simp_all [tokLT]
  · omega
  · exact strLTb_trans h1 h2

theorem tokLT_asymm {a b : Tok} (h1 : tokLT a b = true) (h2 : tokLT b a = true) :
    False := by
  have : tokLT a a = true := tokLT_trans h1 h2
  rw [tokLT_irrefl] at this
  exact Bool.false_ne_true this

theorem tokLT_connex {a b : Tok} (h : a ≠ b) :
    tokLT a b = true ∨ tokLT b a = true := by
  cases a with
  | num m =>
    cases b with
    | num n =>
      have : m ≠ n := fun hEq => h (by rw [hEq])
      rcases Nat.lt_or_ge m n with h' | h'
      · left; simp [tokLT, h']
      · right; simp [tokLT]; omega
    | str s => left; rfl
  | str s =>
    cases b with
    | num n => right; rfl
    | str t =>
      have : s ≠ t := fun hEq => h (by rw [hEq])
      rcases strLTb_connex this with h' | h'
      · left; simpa [tokLT] using h'
      · right; simpa [tokLT] using h'

theorem keyLE_total (k1 k2 : List Tok) : keyLE k1 k2 = true ∨ keyLE k2 k1 = true := by
  induction k1 generalizing k2 with
  | nil => left; rfl
  | cons a as ih =>
    cases k2 with
    | nil => right; rfl
    | cons b bs =>
      by_cases hab : a = b
      · subst hab
        rcases ih bs with h' | h'
        · left; simp [keyLE, h']
        · right; simp [keyLE, h']
      · rcases tokLT_connex hab with h' | h'
        · left; simp [keyLE, hab, h']
        · right; simp [keyLE, Ne.symm hab, h']

theorem keyLE_trans {k1 k2 k3 : List Tok} (h1 : keyLE k1 k2 = true)
    (h2 : keyLE k2 k3 = true) : keyLE k1 k3 = true := by
  induction k1 generalizing k2 k3 with
  | nil => rfl
  | cons a as ih =>
    cases k2 with
    | nil => simp [keyLE] at h1
    | cons b bs =>
      cases k3 with
      | nil => simp [keyLE] at h2
      | cons c cs =>
        simp only [keyLE] at h1 h2 ⊢
        by_cases hab : a = b
        · subst hab
          by_cases hbc : a = c
          · subst hbc
            simp_all
            exact ih h1 h2
          · simp_all
        · by_cases hbc : b = c
          · subst hbc
            simp_all
          · simp only [if_neg hab] at h1
            simp only [if_neg hbc] at h2
            have hac : tokLT a c = true := tokLT_trans h1 h2
            have : a ≠ c := by
              intro hEq
              subst hEq
              exact tokLT_asymm h1 h2
            simp [this, hac]

/- ---------------------------------------------------------------------
   Arithmetic characterizations of the fit computation
   --------------------------------------------------------------------- -/

/-- Integer form of the resized dimensions, for a non-negative target:
`new_w = max 1 (min tw (w*th / h))` and `new_h = max 1 (min (h*tw / w) th)`
with floor division.  Bridges the exact rational computation to
kernel-computable integer arithmetic. -/
theorem fitDims_eq_intForm (w h : ℕ) (tw th : ℤ) (hw : 0 < w) (hh : 0 < h)
    (htw : 0 ≤ tw) (hth : 0 ≤ th) :
    fitDims w h tw th =
      (max 1 (min tw (((w : ℤ) * th).fdiv (h : ℤ))),
       max 1 (min (((h : ℤ) * tw).fdiv (w : ℤ)) th)) := by
  have hwq : (0 : ℚ) < (w : ℚ) := by exact_mod_cast hw
  have hhq : (0 : ℚ) < (h : ℚ) := by exact_mod_cast hh
  have htwq : (0 : ℚ) ≤ (tw : ℚ) := by exact_mod_cast htw
  have hthq : (0 : ℚ) ≤ (th : ℚ) := by exact_mod_cast hth
  have hs0 : 0 ≤ fitScale w h tw th :=
    le_min (div_nonneg htwq hwq.le) (div_nonneg hthq hhq.le)
  have e1 : (w : ℚ) * fitScale w h tw th
      = min ((tw : ℚ)) ((((w : ℤ) * th : ℤ) : ℚ) / ((h : ℕ) : ℚ)) := by
    rw [fitScale, mul_min_of_nonneg _ _ hwq.le]
    congr 1
    · field_simp
    · push_cast
      ring
  have e2 : (h : ℚ) * fitScale w h tw th
      = min ((((h : ℤ) * tw : ℤ) : ℚ) / ((w : ℕ) : ℚ)) ((th : ℚ)) := by
    rw [fitScale, mul_min_of_nonneg _ _ hhq.le]
    congr 1
    · push_cast
      ring
    · field_simp
  have fm : ∀ a b : ℚ, ⌊min a b⌋ = min ⌊a⌋ ⌊b⌋ := fun a b => Int.floor_mono.map_min
  have f1 : pyInt ((w : ℚ) * fitScale w h tw th) = min tw (((w : ℤ) * th).fdiv (h : ℤ)) := by
    rw [pyInt_eq_floor (mul_nonneg hwq.le hs0), e1, fm,
      Int.floor_intCast, Rat.floor_intCast_div_natCast,
      Int.fdiv_eq_ediv _ (by positivity)]
  have f2 : pyInt ((h : ℚ) * fitScale w h tw th) = min (((h : ℤ) * tw).fdiv (w : ℤ)) th := by
    rw [pyInt_eq_floor (mul_nonneg hhq.le hs0), e2, fm,
      Int.floor_intCast, Rat.floor_intCast_div_natCast,
      Int.fdiv_eq_ediv _ (by positivity)]
  simp only [fitDims]
  rw [f1, f2]

/-- Fitting an image onto a canvas of its own size computes the identity
dimensions and a zero offset. -/
theorem fitDims_self (w h : ℕ) (hw : 1 ≤ w) (hh : 1 ≤ h) :
    fitDims w h (w : ℤ) (h : ℤ) = ((w : ℤ), (h : ℤ))
    ∧ fitOffset w h (w : ℤ) (h : ℤ) = (0, 0) := by
  have hd : fitDims w h (w : ℤ) (h : ℤ) = ((w : ℤ), (h : ℤ)) := by
    rw [fitDims_eq_intForm w h _ _ hw hh (by positivity) (by positivity)]
    have c1 : ((w : ℤ) * (h : ℤ)).fdiv (h : ℤ) = (w : ℤ) :=
      Int.mul_fdiv_cancel _
        (by exact_mod_cast Nat.one_le_iff_ne_zero.mp hh)
    have c2 : ((h : ℤ) * (w : ℤ)).fdiv (w : ℤ) = (h : ℤ) :=
      Int.mul_fdiv_cancel _
        (by exact_mod_cast Nat.one_le_iff_ne_zero.mp hw)
    rw [c1, c2, min_self, min_self,
      max_eq_right (by exact_mod_cast hw), max_eq_right (by exact_mod_cast hh)]
  refine ⟨hd, ?_⟩
  rw [fitOffset, hd]
  simp

@[simp] theorem Img.new_width (w h : ℕ) (bg : RGBA) : (Img.new w h bg).width = w := rfl

@[simp] theorem Img.new_height (w h : ℕ) (bg : RGBA) : (Img.new w h bg).height = h := rfl

@[simp] theorem Img.paste_width (c im : Img) (ox oy : ℤ) :
    (c.paste im ox oy).width = c.width := rfl

@[simp] theorem Img.paste_height (c im : Img) (ox oy : ℤ) :
    (c.paste im ox oy).height = c.height := rfl

/-- Any successful aspect-preserving fit returns an image of exactly the
requested canvas dimensions. -/
theorem fit_ok_dims {resample : Resample} {im : Img} {size : ℤ × ℤ} {bg : RGBA}
    {out : Img} (h : fit_to_canvas resample im size true bg = .ok out) :
    out.width = size.1.toNat ∧ out.height = size.2.toNat := by
  unfold fit_to_canvas at h
  simp only [if_true] at h
  split_ifs at h
  simp_all
  subst h
  simp

/-- Explicit success form of the aspect-preserving fit when the image has
non-zero dimensions and the requested canvas is non-negative. -/
theorem fit_ok_form (resample : Resample) (im : Img) (tw th : ℤ) (bg : RGBA)
    (hw : im.width ≠ 0) (hh : im.height ≠ 0) (htw : 0 ≤ tw) (hth : 0 ≤ th) :
    fit_to_canvas resample im (tw, th) true bg =
      .ok ((Img.new tw.toNat th.toNat bg).paste
        (Img.resizeA resample im (fitDims im.width im.height tw th).1.toNat
          (fitDims im.width im.height tw th).2.toNat)
        (fitOffset im.width im.height tw th).1
        (fitOffset im.width im.height tw th).2) := by
  have h0 : ¬(im.width = 0 ∨ im.height = 0) := by
    push_neg
    exact ⟨hw, hh⟩
  have h1 : ¬(tw < 0 ∨ th < 0) := by
    push_neg
    exact ⟨htw, hth⟩
  simp [fit_to_canvas, h0, h1]

/-- Pushes a successful `mapM` over `Except` to a property of each output. -/
theorem exceptMapM_ok {α β : Type} {f : α → Except DriverError β} {l : List α}
    {out : List β} (h : l.mapM f = .ok out) {P : β → Prop}
    (hf : ∀ a b, f a = .ok b → P b) : ∀ b ∈ out, P b := by
  induction l generalizing out with
  | nil =>
    simp only [List.mapM_nil, pure] at h
    injection h with h'
    rw [← h']
    intro b hb
    cases hb
  | cons a as ih =>
    rw [List.mapM_cons] at h
    cases hfa : f a with
    | error e => rw [hfa] at h; simp [Bind.bind, Except.bind] at h
    | ok b =>
      rw [hfa] at h
      cases hrest : as.mapM f with
      | error e =>
        rw [hrest] at h
        simp [Bind.bind, Except.bind, pure] at h
      | ok bs =>
        rw [hrest] at h
        simp only [Bind.bind, Except.bind, pure, Except.pure] at h
        injection h with h'
        rw [← h']
        intro x hx
        rcases List.mem_cons.mp hx with rfl | hx'
        · exact hf a x hfa
        · exact ih hrest x hx'

/- ---------------------------------------------------------------------
   Claims
   --------------------------------------------------------------------- -/

/-- C4: `collect_image_paths` orders any list of filenames by natural sort
(the output is a permutation of the input, sorted under the token-wise key
comparison `keyR`: digit runs as integers, other runs as lowercase
strings), and in particular sorting
`["img10.png", "img2.png", "img1.png"]` yields
`["img1.png", "img2.png", "img10.png"]`. -/
theorem collect_image_paths_natural_sort (files : List String) :
    List.Perm (collect_image_paths files) files
    ∧ List.Sorted keyR (collect_image_paths files)
    ∧ collect_image_paths ["img10.png", "img2.png", "img1.png"]
        = ["img1.png", "img2.png", "img10.png"] := by
  refine ⟨List.perm_insertionSort keyR files, ?_, by decide⟩
  have tot : IsTotal String keyR :=
    ⟨fun a b => keyLE_total (natural_sort_key a) (natural_sort_key b)⟩
  have trans : IsTrans String keyR := ⟨fun _ _ _ h1 h2 => keyLE_trans h1 h2⟩
  exact @List.sorted_insertionSort String keyR _ tot trans files

/-- C6: `save_gif` fails with the empty-input error exactly when given zero
frames, and in that case it never returns a written file. -/
theorem save_gif_empty_iff_error (quantize : Img → Img) (frames : List Img)
    (d loop : ℤ) (opt : Bool) :
    (save_gif quantize frames d loop opt = .error .emptyInput ↔ frames = [])
    ∧ (∀ g : GifFile, frames = [] → save_gif quantize frames d loop opt ≠ .ok g) := by
  constructor
  · unfold save_gif
    by_cases h : frames = []
    · simp [h]
    · simp [h, List.isEmpty_iff]
  · intro g hg
    subst hg
    simp [save_gif]

/-- Witness for C6: the empty frame list triggers the empty-input error. -/
theorem save_gif_empty_iff_error_witness :
    save_gif id [] 100 0 true = .error .emptyInput :=
  (save_gif_empty_iff_error id [] 100 0 true).1.mpr rfl

/-- C7: when the path scan comes back empty, `make_gif_from_folder` fails
with the no-images-found error for every decoder — in particular before any
image could be opened (even a decoder that fails on every path is never
consulted). -/
theorem empty_scan_fails_before_decode (resample : Resample) (quantize : Img → Img)
    (loader : String → Except LoadError Img) (found : List String)
    (fps : Option ℚ) (dms : Option ℤ) (size : Option (ℤ × ℤ)) (loop : ℤ)
    (h : collect_image_paths found = []) :
    make_gif_from_folder resample quantize loader found fps dms size loop
      = .error .noImagesFound := by
  simp [make_gif_from_folder, h]

/-- Witness for C7: an empty directory scan with an always-failing decoder
still reports no-images-found. -/
theorem empty_scan_fails_before_decode_witness :
    make_gif_from_folder trivResample id (fun p => .error (.undecodable p)) []
      none none none 0 = .error .noImagesFound :=
  empty_scan_fails_before_decode trivResample id _ [] none none none 0 rfl

/-- C3 counterexample: the claim says the derived duration is
`round(1000 / fps)`; at `fps = 7` the code computes `int(1000/7) = 142`
while rounding gives `143`. -/
theorem duration_trunc_not_round_cex :
    resolve_duration (some 7) none = 142 ∧ round ((1000 : ℚ) / 7) = 143 := by
  constructor
  · have h7 : (0 : ℚ) < 7 := by norm_num
    simp only [resolve_duration, if_pos h7, Option.getD_some]
    rw [pyInt_eq_floor (by positivity)]
    norm_num
  · rw [round_eq]
    norm_num

/-- C3 (amended): a positive fps overrides any explicit duration with
`int(1000 / fps)` milliseconds — truncation (floor, for positive fps), not
rounding; with no fps the explicit duration is used when given, else
100 ms; `fps=2` gives 500, no fps and no duration gives 100, and `fps=3`
overrides an explicit `duration_ms=1000` (yielding 333); a successful
`make_gif_from_folder` stores exactly the resolved duration. -/
theorem duration_policy_trunc :
    (∀ f : ℚ, 0 < f → ∀ d : Option ℤ, resolve_duration (some f) d = ⌊(1000 : ℚ) / f⌋)
    ∧ (∀ d : Option ℤ, resolve_duration none d = d.getD 100)
    ∧ resolve_duration (some 2) none = 500
    ∧ resolve_duration none none = 100
    ∧ resolve_duration (some 3) (some 1000) = 333
    ∧ (∀ (resample : Resample) (quantize : Img → Img)
        (loader : String → Except LoadError Img) (found : List String)
        (fps : Option ℚ) (dms : Option ℤ) (size : Option (ℤ × ℤ)) (loop : ℤ)
        (g : GifFile),
        make_gif_from_folder resample quantize loader found fps dms size loop = .ok g →
        g.duration_ms = resolve_duration fps dms) := by
  have hpos : ∀ f : ℚ, 0 < f → ∀ d : Option ℤ,
      resolve_duration (some f) d = ⌊(1000 : ℚ) / f⌋ := by
    intro f hf d
    simp only [resolve_duration, if_pos hf, Option.getD_some]
    rw [pyInt_eq_floor (by positivity)]
  refine ⟨hpos, fun d => rfl, ?_, rfl, ?_, ?_⟩
  · rw [hpos 2 (by norm_num) none]
    norm_num
  · rw [hpos 3 (by norm_num) (some 1000)]
    norm_num
  · intro resample quantize loader found fps dms size loop g h
    simp only [make_gif_from_folder] at h
    split_ifs at h
    cases hlf : load_frames resample loader (collect_image_paths found) size with
    | error e =>
      rw [hlf] at h
      simp only [Bind.bind, Except.bind] at h
      cases h
    | ok frames =>
      rw [hlf] at h
      simp only [save_gif, Bind.bind, Except.bind] at h
      split_ifs at h
      rw [Except.ok.injEq] at h
      rw [← h]

/-- Witness for C3's amended theorem: `fps = 4` yields 250 ms. -/
theorem duration_policy_trunc_witness :
    resolve_duration (some 4) none = 250 :=
  (duration_policy_trunc.1 4 (by norm_num) none).trans (by norm_num)

/-- C9: a supplied non-positive fps is silently ignored: the duration falls
back to the explicit duration when given, else 100 ms, and the whole driver
behaves exactly as if no fps had been passed (no error is raised). -/
theorem nonpositive_fps_ignored (f : ℚ) (hf : f ≤ 0) (d : Option ℤ)
    (resample : Resample) (quantize : Img → Img)
    (loader : String → Except LoadError Img) (found : List String)
    (size : Option (ℤ × ℤ)) (loop : ℤ) :
    resolve_duration (some f) d = d.getD 100
    ∧ make_gif_from_folder resample quantize loader found (some f) d size loop
      = make_gif_from_folder resample quantize loader found none d size loop := by
  have h1 : resolve_duration (some f) d = resolve_duration none d := by
    simp only [resolve_duration, if_neg (not_lt.mpr hf)]
  exact ⟨h1, by simp only [make_gif_from_folder, h1]⟩

/-- Witness for C9: `fps = 0` with an explicit 250 ms duration resolves to
250 ms and leaves the driver's behaviour unchanged. -/
theorem nonpositive_fps_ignored_witness :
    resolve_duration (some 0) (some 250) = 250
    ∧ make_gif_from_folder trivResample id sampleLoader ["a.png"] (some 0)
        (some 250) none 0
      = make_gif_from_folder trivResample id sampleLoader ["a.png"] none
        (some 250) none 0 := by
  have h := nonpositive_fps_ignored 0 (by norm_num) (some 250) trivResample id
    sampleLoader ["a.png"] none 0
  simpa using h

/-- C2: for positive image dimensions and a non-negative canvas, the fit
computes scale `min(cw/w, ch/h)`, resized dimensions floored with a floor
of 1 pixel, and a center offset by integer division — exactly the spec's
formula; in particular a 200×100 image on a 100×100 canvas resizes to
100×50 at vertical offset 25, and a 1000×10 image on a 10×10 canvas gets
height 1, never 0. -/
theorem fit_formula_matches_spec (w h : ℕ) (tw th : ℤ)
    (hw : 1 ≤ w) (hh : 1 ≤ h) (htw : 0 ≤ tw) (hth : 0 ≤ th) :
    fitDims w h tw th = specFitDims w h tw th
    ∧ fitOffset w h tw th = specFitOffset w h tw th
    ∧ fitDims 200 100 100 100 = (100, 50)
    ∧ fitOffset 200 100 100 100 = (0, 25)
    ∧ (fitDims 1000 10 10 10).2 = 1 := by
  have hwq : (0 : ℚ) < (w : ℚ) := by exact_mod_cast hw
  have hhq : (0 : ℚ) < (h : ℚ) := by exact_mod_cast hh
  have htwq : (0 : ℚ) ≤ (tw : ℚ) := by exact_mod_cast htw
  have hthq : (0 : ℚ) ≤ (th : ℚ) := by exact_mod_cast hth
  have hs0 : 0 ≤ fitScale w h tw th :=
    le_min (div_nonneg htwq hwq.le) (div_nonneg hthq hhq.le)
  have hdims : fitDims w h tw th = specFitDims w h tw th := by
    simp only [fitDims, specFitDims, fitScale] at hs0 ⊢
    rw [pyInt_eq_floor (mul_nonneg hwq.le hs0), pyInt_eq_floor (mul_nonneg hhq.le hs0)]
  have hoffs : fitOffset w h tw th = specFitOffset w h tw th := by
    simp only [fitOffset, specFitOffset, ← hdims]
    rw [Int.fdiv_eq_ediv _ (by norm_num), Int.fdiv_eq_ediv _ (by norm_num)]
  have hA : fitDims 200 100 100 100 = (100, 50) := by
    rw [fitDims_eq_intForm 200 100 100 100 (by norm_num) (by norm_num) (by norm_num)
      (by norm_num)]
    decide
  have hB : fitOffset 200 100 100 100 = (0, 25) := by
    simp only [fitOffset, hA]
    decide
  have hC : (fitDims 1000 10 10 10).2 = 1 := by
    rw [fitDims_eq_intForm 1000 10 10 10 (by norm_num) (by norm_num) (by norm_num)
      (by norm_num)]
    decide
  exact ⟨hdims, hoffs, hA, hB, hC⟩

/-- Witness for C2 at the 200×100 → 100×100 instance. -/
theorem fit_formula_matches_spec_witness :
    fitDims 200 100 100 100 = (100, 50) ∧ fitOffset 200 100 100 100 = (0, 25) :=
  ⟨(fit_formula_matches_spec 200 100 100 100 (by norm_num) (by norm_num) (by norm_num)
      (by norm_num)).2.2.1,
   (fit_formula_matches_spec 200 100 100 100 (by norm_num) (by norm_num) (by norm_num)
      (by norm_num)).2.2.2.1⟩

/-- C10: for a positive-size image and a canvas of width, height ≥ 1, the
resized dimensions satisfy `1 ≤ new ≤ canvas` in both axes, the paste
offsets are non-negative, and offset + resized size stays within the
canvas. -/
theorem fit_result_within_canvas (w h : ℕ) (tw th : ℤ)
    (hw : 1 ≤ w) (hh : 1 ≤ h) (htw : 1 ≤ tw) (hth : 1 ≤ th) :
    1 ≤ (fitDims w h tw th).1 ∧ (fitDims w h tw th).1 ≤ tw
    ∧ 1 ≤ (fitDims w h tw th).2 ∧ (fitDims w h tw th).2 ≤ th
    ∧ 0 ≤ (fitOffset w h tw th).1 ∧ 0 ≤ (fitOffset w h tw th).2
    ∧ (fitOffset w h tw th).1 + (fitDims w h tw th).1 ≤ tw
    ∧ (fitOffset w h tw th).2 + (fitDims w h tw th).2 ≤ th := by
  have hd := fitDims_eq_intForm w h tw th hw hh (by omega) (by omega)
  simp only [fitOffset, hd]
  have h1 : (1 : ℤ) ≤ max 1 (min tw (((w : ℤ) * th).fdiv (h : ℤ))) := le_max_left _ _
  have h2 : max 1 (min tw (((w : ℤ) * th).fdiv (h : ℤ))) ≤ tw :=
    max_le htw (min_le_left _ _)
  have h3 : (1 : ℤ) ≤ max 1 (min (((h : ℤ) * tw).fdiv (w : ℤ)) th) := le_max_left _ _
  have h4 : max 1 (min (((h : ℤ) * tw).fdiv (w : ℤ)) th) ≤ th :=
    max_le hth (min_le_right _ _)
  have h5 : (tw - max 1 (min tw (((w : ℤ) * th).fdiv (h : ℤ)))).fdiv 2
      ≤ tw - max 1 (min tw (((w : ℤ) * th).fdiv (h : ℤ))) := by
    rw [Int.fdiv_eq_ediv _ (by norm_num)]
    exact Int.ediv_le_self _ (by omega)
  have h6 : 0 ≤ (tw - max 1 (min tw (((w : ℤ) * th).fdiv (h : ℤ)))).fdiv 2 :=
    Int.fdiv_nonneg (by omega) (by norm_num)
  have h7 : (th - max 1 (min (((h : ℤ) * tw).fdiv (w : ℤ)) th)).fdiv 2
      ≤ th - max 1 (min (((h : ℤ) * tw).fdiv (w : ℤ)) th) := by
    rw [Int.fdiv_eq_ediv _ (by norm_num)]
    exact Int.ediv_le_self _ (by omega)
  have h8 : 0 ≤ (th - max 1 (min (((h : ℤ) * tw).fdiv (w : ℤ)) th)).fdiv 2 :=
    Int.fdiv_nonneg (by omega) (by norm_num)
  refine ⟨h1, h2, h3, h4, h6, h8, by omega, by omega⟩

/-- Witness for C10 at a 3×5 image on a 4×4 canvas. -/
theorem fit_result_within_canvas_witness :
    1 ≤ (fitDims 3 5 4 4).1 ∧ (fitDims 3 5 4 4).1 ≤ 4
    ∧ 1 ≤ (fitDims 3 5 4 4).2 ∧ (fitDims 3 5 4 4).2 ≤ 4
    ∧ 0 ≤ (fitOffset 3 5 4 4).1 ∧ 0 ≤ (fitOffset 3 5 4 4).2
    ∧ (fitOffset 3 5 4 4).1 + (fitDims 3 5 4 4).1 ≤ 4
    ∧ (fitOffset 3 5 4 4).2 + (fitDims 3 5 4 4).2 ≤ 4 :=
  fit_result_within_canvas 3 5 4 4 (by norm_num) (by norm_num) (by norm_num) (by norm_num)

/-- C8: fitting an image whose dimensions already equal the target canvas
computes a (0, 0) padding offset and succeeds with pixel-identical output
(Pillow's same-size resize returns a copy, and the centered paste covers
the whole canvas). -/
theorem fit_idempotent_on_exact_size (resample : Resample) (bg : RGBA) (im : Img)
    (hw : 1 ≤ im.width) (hh : 1 ≤ im.height) :
    fitOffset im.width im.height (im.width : ℤ) (im.height : ℤ) = (0, 0)
    ∧ ∃ out, fit_to_canvas resample im ((im.width : ℤ), (im.height : ℤ)) true bg = .ok out
        ∧ sameImage out im := by
  obtain ⟨hd, hoff⟩ := fitDims_self im.width im.height hw hh
  refine ⟨hoff, ?_⟩
  rw [fit_ok_form resample im _ _ bg (by omega) (by omega) (by positivity) (by positivity)]
  refine ⟨_, rfl, ?_⟩
  rw [hd, hoff]
  have hr : Img.resizeA resample im ((im.width : ℤ), (im.height : ℤ)).1.toNat
      ((im.width : ℤ), (im.height : ℤ)).2.toNat = im := by
    simp [Img.resizeA]
  rw [hr]
  refine ⟨by simp, by simp, ?_⟩
  intro x hx y hy
  have hx' : x < ((Img.new (im.width : ℤ).toNat (im.height : ℤ).toNat bg).paste im 0 0).width := hx
  simp only [Img.paste, Img.new]
  have hc : (0 : ℤ) ≤ (x : ℤ) ∧ (x : ℤ) < 0 + (im.width : ℤ)
      ∧ (0 : ℤ) ≤ (y : ℤ) ∧ (y : ℤ) < 0 + (im.height : ℤ) := by
    simp only [Int.toNat_natCast] at hx hy ⊢
    constructor
    · positivity
    constructor
    · simp only [Img.paste_width, Img.new_width, Int.toNat_natCast] at hx'
      omega
    constructor
    · positivity
    · simp only [Img.paste_height, Img.new_height, Int.toNat_natCast] at hy
      omega
  rw [if_pos hc]
  simp

/-- Witness for C8: a concrete 2×2 image on its own 2×2 canvas. -/
theorem fit_idempotent_on_exact_size_witness :
    fitOffset sampleImg.width sampleImg.height (sampleImg.width : ℤ)
      (sampleImg.height : ℤ) = (0, 0)
    ∧ ∃ out, fit_to_canvas trivResample sampleImg
        ((sampleImg.width : ℤ), (sampleImg.height : ℤ)) true trBG = .ok out
        ∧ sameImage out sampleImg :=
  fit_idempotent_on_exact_size trivResample trBG sampleImg (by decide) (by decide)

/-- C5 counterexample: the claim says a supplied canvas dimension ≤ 0 makes
frame normalization fail with an invalid-size error; but with canvas
`(0, 100)` the code raises nothing and returns a degenerate 0×100 frame. -/
theorem zero_canvas_dim_produces_frames_cex :
    (load_frames trivResample sampleLoader ["a.png"] (some (0, 100))).map
      (List.map fun f => (f.width, f.height)) = .ok [(0, 100)] := by
  have hfit := fit_ok_form trivResample sampleImg 0 100 trBG
    (by decide) (by decide) (by norm_num) (by norm_num)
  simp only [load_frames, sampleLoader, Except.mapError, Option.getD_some, hfit,
    List.mapM_nil, Bind.bind, Except.bind, pure, Except.pure, Except.map, List.map]
  simp

/-- C5 (amended): no validation is performed on the supplied canvas size;
the normalization step fails with the imaging library's invalid-size error
exactly when a dimension is strictly negative (a zero dimension is accepted
and produces degenerate frames without error). -/
theorem negative_canvas_dim_errors (resample : Resample) (im : Img) (tw th : ℤ)
    (hw : 1 ≤ im.width) (hh : 1 ≤ im.height) :
    (fit_to_canvas resample im (tw, th) true trBG = .error .invalidSize
      ↔ tw < 0 ∨ th < 0)
    ∧ (load_frames resample (fun _ => .ok im) ["p"] (some (tw, th))
        = .error (.pil .invalidSize) ↔ tw < 0 ∨ th < 0) := by
  have h0 : ¬(im.width = 0 ∨ im.height = 0) := by omega
  by_cases hneg : tw < 0 ∨ th < 0
  · have hf : fit_to_canvas resample im (tw, th) true trBG
        = .error .invalidSize := by
      simp [fit_to_canvas, h0, hneg]
    constructor
    · simp [hf, hneg]
    · simp [load_frames, Except.mapError, hf, Bind.bind, Except.bind, hneg]
  · push_neg at hneg
    have hf := fit_ok_form resample im tw th trBG (by omega) (by omega)
      hneg.1 hneg.2
    constructor
    · simp only [hf]
      constructor
      · intro h
        cases h
      · intro h
        omega
    · simp only [load_frames, Except.mapError, Option.getD_some, hf, List.mapM_nil,
        Bind.bind, Except.bind, pure, Except.pure]
      constructor
      · intro h
        cases h
      · intro h
        omega

/-- Witness for C5's amended theorem: a negative canvas width errors. -/
theorem negative_canvas_dim_errors_witness :
    fit_to_canvas trivResample sampleImg (-1, 5) true trBG
      = .error .invalidSize :=
  ((negative_canvas_dim_errors trivResample sampleImg (-1) 5 (by decide)
      (by decide)).1).mpr (Or.inl (by norm_num))

/-- Inversion: a successful `Except` bind means the first step succeeded. -/
theorem except_bind_ok {α β : Type} {x : Except DriverError α}
    {f : α → Except DriverError β} {b : β} (h : x >>= f = .ok b) :
    ∃ a, x = .ok a ∧ f a = .ok b := by
  cases x with
  | error e => simp [Bind.bind, Except.bind] at h
  | ok a => exact ⟨a, rfl, by simpa [Bind.bind, Except.bind] using h⟩

/-- Inversion: `mapError` preserves success. -/
theorem mapError_ok {ε ε' α : Type} {g : ε → ε'} {x : Except ε α} {a : α}
    (h : x.mapError g = .ok a) : x = .ok a := by
  cases x with
  | error e => simp [Except.mapError] at h
  | ok a' => simpa [Except.mapError] using h

/-- C1: every frame returned by `load_frames` has exactly the resolved
canvas dimensions — the explicit `target_size` when supplied, otherwise the
dimensions of the first loaded image — whatever the sizes of the source
images. -/
theorem load_frames_uniform_size (resample : Resample)
    (loader : String → Except LoadError Img) (p0 : String) (rest : List String)
    (target_size : Option (ℤ × ℤ)) (img0 : Img) (frames : List Img)
    (h0 : loader p0 = .ok img0)
    (h : load_frames resample loader (p0 :: rest) target_size = .ok frames) :
    ∀ f ∈ frames,
      f.width = (target_size.getD ((img0.width : ℤ), (img0.height : ℤ))).1.toNat
      ∧ f.height = (target_size.getD ((img0.width : ℤ), (img0.height : ℤ))).2.toNat := by
  simp only [load_frames] at h
  obtain ⟨i0, hi0, h⟩ := except_bind_ok h
  have hi0' := mapError_ok hi0
  rw [h0] at hi0'
  injection hi0' with hi0''
  subst hi0''
  obtain ⟨f0, hf0, h⟩ := except_bind_ok h
  obtain ⟨fs, hfs, h⟩ := except_bind_ok h
  simp only [pure, Except.pure, Except.ok.injEq] at h
  subst h
  intro f hf
  rcases List.mem_cons.mp hf with rfl | hf'
  · exact fit_ok_dims (mapError_ok hf0)
  · exact @exceptMapM_ok String Img _ _ _ hfs
      (fun b => b.width = (target_size.getD ((img0.width : ℤ), (img0.height : ℤ))).1.toNat
        ∧ b.height = (target_size.getD ((img0.width : ℤ), (img0.height : ℤ))).2.toNat)
      (fun p b hpb => by
        obtain ⟨im, him, hpb⟩ := except_bind_ok hpb
        exact fit_ok_dims (mapError_ok hpb)) f hf'

/-- Witness for C1: one 2×2 source image onto an explicit 5×4 canvas. -/
theorem load_frames_uniform_size_witness :
    load_frames trivResample sampleLoader ["a.png"] (some (5, 4)) = .ok [w1Frame]
    ∧ ∀ f ∈ [w1Frame], f.width = 5 ∧ f.height = 4 := by
  have hd : fitDims 2 2 5 4 = (4, 4) := by
    rw [fitDims_eq_intForm 2 2 5 4 (by norm_num) (by norm_num) (by norm_num) (by norm_num)]
    decide
  have hoff : fitOffset 2 2 5 4 = (0, 0) := by
    simp only [fitOffset, hd]
    decide
  have hfit : fit_to_canvas trivResample sampleImg (5, 4) true trBG = .ok w1Frame := by
    rw [fit_ok_form trivResample sampleImg 5 4 trBG (by decide) (by decide) (by norm_num)
      (by norm_num)]
    show Except.ok ((Img.new (5 : ℤ).toNat (4 : ℤ).toNat trBG).paste
      (Img.resizeA trivResample sampleImg (fitDims 2 2 5 4).1.toNat
        (fitDims 2 2 5 4).2.toNat)
      (fitOffset 2 2 5 4).1 (fitOffset 2 2 5 4).2) = .ok w1Frame
    rw [hd, hoff]
    rfl
  have hload : load_frames trivResample sampleLoader ["a.png"] (some (5, 4))
      = .ok [w1Frame] := by
    simp only [load_frames, sampleLoader, Except.mapError, Option.getD_some, hfit,
      List.mapM_nil, Bind.bind, Except.bind, pure, Except.pure]
  refine ⟨hload, ?_⟩
  have := load_frames_uniform_size trivResample sampleLoader "a.png" [] (some (5, 4))
    sampleImg [w1Frame] rfl hload
  simpa using this
